import Mathlib

/-!
Verification development for the PAWS Workflow Execution Core.

The definitions below are a shallow embedding of the Python source under
`src/paws/` (executor.py, state_manager.py, aol_parser.py, mcp_client.py,
validator.py, core/models.py).  Machine-level details that are irrelevant to
the semantics (timestamps, file I/O, the textual repr of composite Python
values) are modelled explicitly where they matter and abstracted into an
environment record where the source delegates to the file system or to
dynamically loaded extensions.
-/

namespace Paws

/-- Python `str.strip()` whitespace set (ASCII portion used by the source). -/
def isSpaceChar (c : Char) : Bool :=
  c = ' ' || c = '\t' || c = '\n' || c = '\x0d' || c = '\x0b' || c = '\x0c'

/-- Strip leading and trailing whitespace from a character list (Python `strip`). -/
def stripChars (l : List Char) : List Char :=
  ((l.dropWhile isSpaceChar).reverse.dropWhile isSpaceChar).reverse

/-- Python `s.strip()`. -/
def pyStrip (s : String) : String := ⟨stripChars s.data⟩

/-- Python `s.strip(chr)` for a single character: drop every leading and
trailing occurrence of that character. -/
def stripChar (ch : Char) (s : String) : String :=
  ⟨((s.data.dropWhile (· = ch)).reverse.dropWhile (· = ch)).reverse⟩

/-- ASCII lower-casing, Python `s.lower()` on the ASCII fragment. -/
def pyLower (s : String) : String := ⟨s.data.map Char.toLower⟩

/-- Dynamically typed values stored in step inputs, payloads and the Context
Store (the `Any` side of the Python `Dict[str, Any]` maps). -/
inductive Value where
  | vStr (s : String)
  | vInt (n : Int)
  | vBool (b : Bool)
  | vList (xs : List Value)
  | vDict (m : List (String × Value))
deriving Repr

mutual

/-- Python `str(value)`.  Scalars follow CPython exactly; the textual form of
composite values (lists, dicts) is modelled structurally. -/
def pyStr : Value → String
  | .vStr s => s
  | .vInt n => toString n
  | .vBool b => if b then "True" else "False"
  | .vList xs => "[" ++ pyStrList xs ++ "]"
  | .vDict m => "\x7b" ++ pyStrDict m ++ "\x7d"

def pyStrList : List Value → String
  | [] => ""
  | [x] => pyStr x
  | x :: y :: rest => pyStr x ++ ", " ++ pyStrList (y :: rest)

def pyStrDict : List (String × Value) → String
  | [] => ""
  | [(k, v)] => "\x27" ++ k ++ "\x27: " ++ pyStr v
  | (k, v) :: p :: rest => "\x27" ++ k ++ "\x27: " ++ pyStr v ++ ", " ++ pyStrDict (p :: rest)

end

/-- Python truthiness of a value. -/
def pyTruthy : Value → Bool
  | .vStr s => !s.isEmpty
  | .vInt n => n != 0
  | .vBool b => b
  | .vList xs => !xs.isEmpty
  | .vDict m => !m.isEmpty

/-- Python truthiness of an `Optional[str]` (None and the empty string are falsy). -/
def optStrTruthy : Option String → Bool
  | none => false
  | some s => !s.isEmpty

/-- One entry of the Context Store: the outputs dictionary of a step. -/
abbrev CtxEntry := List (String × Value)

/-- The Context Store: `step_id -> outputs` (executor.py, `self.context`). -/
abbrev Ctx := List (String × CtxEntry)

/-- Dictionary write preserving insertion order (Python dict assignment). -/
def updAssoc {β : Type} (m : List (String × β)) (k : String) (v : β) :
    List (String × β) :=
  if (m.lookup k).isSome then
    m.map (fun p => match p with | (a, b) => if a = k then (k, v) else (a, b))
  else m ++ [(k, v)]

/-- Lookup `context[step_id][key]`, `none` when either level is missing. -/
def ctxGet (ctx : Ctx) (sid key : String) : Option Value :=
  (ctx.lookup sid).bind (fun entry => entry.lookup key)

/-- Leftmost match of the regex `\x7b\x7b([^\x7d]+)\x7d\x7d` at the head of the
list: returns the group body and the remainder after the match. -/
def refMatch (l : List Char) : Option (List Char × List Char) :=
  match l with
  | '\x7b' :: '\x7b' :: rest =>
    let body := rest.takeWhile (fun c => !(c = '\x7d'))
    if body.isEmpty then none
    else
      match rest.drop body.length with
      | '\x7d' :: '\x7d' :: tail => some (body, tail)
      | _ => none
  | _ => none

/-- The replacement function of `ExecutorEngine._interpolate_string` (the
`replacer` closure, executor.py lines 438 to 450), acting on the regex group. -/
def replacer (ctx : Ctx) (body : List Char) : List Char :=
  let unchanged := '\x7b' :: '\x7b' :: (body ++ ['\x7d', '\x7d'])
  if body.contains '.' then
    let sid : String := ⟨body.takeWhile (fun c => !(c = '.'))⟩
    let key : String := ⟨(body.drop sid.length).drop 1⟩
    match ctxGet ctx sid key with
    | some v => if pyTruthy v then (pyStrip (pyStr v)).data else []
    | none => unchanged
  else unchanged

/-- `re.sub` scan of `_interpolate_string`: leftmost, non-overlapping matches,
each replaced through `replacer`; unmatched characters copied verbatim.  The
fuel argument (any bound on the input length) makes the recursion structural;
each step of the scan consumes at least one character. -/
def interpGo (ctx : Ctx) : Nat → List Char → List Char
  | 0, l => l
  | fuel + 1, l =>
    match refMatch l with
    | some (body, tail) => replacer ctx body ++ interpGo ctx fuel tail
    | none =>
      match l with
      | [] => []
      | c :: cs => c :: interpGo ctx fuel cs

/-- The full scan of a character list. -/
def interpolateChars (ctx : Ctx) (l : List Char) : List Char :=
  interpGo ctx l.length l

/-- `ExecutorEngine._interpolate_string` (executor.py lines 434 to 452). -/
def interpolate_string (ctx : Ctx) (text : String) : String :=
  ⟨interpolateChars ctx text.data⟩

/-- A chunk of the scanned input: a literal character, or one `\x7b\x7bR\x7d\x7d`
reference with group body `R`. -/
inductive Chunk where
  | lit (c : Char)
  | ref (body : List Char)
deriving Repr

/-- Decompose a string into literal characters and reference groups, using the
same leftmost scan as the source regex (fuel as in `interpGo`). -/
def tokenGo : Nat → List Char → List Chunk
  | 0, _ => []
  | fuel + 1, l =>
    match refMatch l with
    | some (body, tail) => .ref body :: tokenGo fuel tail
    | none =>
      match l with
      | [] => []
      | c :: cs => .lit c :: tokenGo fuel cs

/-- The full decomposition of a character list. -/
def tokenize (l : List Char) : List Chunk :=
  tokenGo l.length l

/-- Rendering of one chunk following the specification text: split the group on
the first dot into `ID.KEY`; when `ID` is present in the store and `KEY` exists
under it, substitute the whitespace-stripped string form of the value (an empty,
i.e. falsy, value yields the empty string); otherwise, and for groups without a
dot, keep the matched substring unchanged. -/
def renderChunk (ctx : Ctx) : Chunk → List Char
  | .lit c => [c]
  | .ref body =>
    if body.contains '.' then
      let sid : String := ⟨body.takeWhile (fun c => !(c = '.'))⟩
      let key : String := ⟨(body.drop sid.length).drop 1⟩
      match ctxGet ctx sid key with
      | some v => if pyTruthy v then (pyStrip (pyStr v)).data else []
      | none => '\x7b' :: '\x7b' :: (body ++ ['\x7d', '\x7d'])
    else '\x7b' :: '\x7b' :: (body ++ ['\x7d', '\x7d'])

/-- Specification-side interpolation: tokenize, then render every chunk. -/
def specInterpolate (ctx : Ctx) (text : String) : String :=
  ⟨((tokenize text.data).map (renderChunk ctx)).flatten⟩

/-! ## Condition evaluator (executor.py lines 361 to 432) -/

/-- Value of a nonempty digit string. -/
def digitsToNat (ds : List Char) : Nat :=
  ds.foldl (fun a c => a * 10 + (c.toNat - 48)) 0

/-- Exponent tail after `e`/`E`: optional sign, then a nonempty all-digit run. -/
def parseExpTail (r : List Char) : Option Int :=
  let (es, r) : Int × List Char :=
    match r with
    | '+' :: t => (1, t)
    | '-' :: t => (-1, t)
    | _ => (1, r)
  if !r.isEmpty && r.all Char.isDigit then some (es * (digitsToNat r : Int)) else none

/-- Python `float(s)` on the decimal fragment: optional surrounding whitespace,
optional sign, digits with an optional point and an optional exponent.  The
`inf`/`nan` words and underscore separators accepted by CPython are not
modelled; the conditions in scope never produce them.  The result is the exact
decimal value as a pair `(mantissa, exponent)` denoting `mantissa * 10 ^
exponent`; comparisons below are exact (the IEEE rounding of CPython floats is
not modelled, and is indistinguishable on every comparison the claims
exercise). -/
def parseFloat (s : String) : Option (Int × Int) :=
  let cs := stripChars s.data
  let (sign, cs) : Int × List Char :=
    match cs with
    | '+' :: r => (1, r)
    | '-' :: r => (-1, r)
    | _ => (1, cs)
  let ipart := cs.takeWhile Char.isDigit
  let rest := cs.drop ipart.length
  let (fpart, rest) : List Char × List Char :=
    match rest with
    | '.' :: r => (r.takeWhile Char.isDigit, r.drop (r.takeWhile Char.isDigit).length)
    | _ => ([], rest)
  let expOpt : Option Int :=
    match rest with
    | [] => some 0
    | 'e' :: r => parseExpTail r
    | 'E' :: r => parseExpTail r
    | _ => none
  if ipart.isEmpty && fpart.isEmpty then none
  else
    match expOpt with
    | none => none
    | some e =>
      let mant : Int := sign * (digitsToNat (ipart ++ fpart) : Int)
      some (mant, e - (fpart.length : Int))

/-- `10 ^ n` on integers by structural recursion (kernel-reducible). -/
def pow10 : Nat → Int
  | 0 => 1
  | n + 1 => 10 * pow10 n

/-- Bring two decimal values to a common exponent: the pair of scaled
mantissas, whose integer order is the order of the denoted values. -/
def floatScaled (a b : Int × Int) : Int × Int :=
  if a.2 ≥ b.2 then (a.1 * pow10 (a.2 - b.2).toNat, b.1)
  else (a.1, b.1 * pow10 (b.2 - a.2).toNat)

/-- Exact `a < b` on parsed decimal values. -/
def floatLt (a b : Int × Int) : Bool :=
  (floatScaled a b).1 < (floatScaled a b).2

/-- Exact `a ≤ b` on parsed decimal values. -/
def floatLe (a b : Int × Int) : Bool :=
  (floatScaled a b).1 ≤ (floatScaled a b).2

/-- The seven comparison operators of `_evaluate_simple_condition`. -/
inductive CmpOp where
  | ge | le | ne | eq | gt | lt | hasSub
deriving Repr, DecidableEq

/-- The padded textual pattern of each operator. -/
def opPattern : CmpOp → List Char
  | .ge => [' ', '>', '=', ' ']
  | .le => [' ', '<', '=', ' ']
  | .ne => [' ', '!', '=', ' ']
  | .eq => [' ', '=', '=', ' ']
  | .gt => [' ', '>', ' ']
  | .lt => [' ', '<', ' ']
  | .hasSub => [' ', 'c', 'o', 'n', 't', 'a', 'i', 'n', 's', ' ']

/-- The source scan order `[" >= ", " <= ", " != ", " == ", " > ", " < ", " contains "]`. -/
def opsInOrder : List CmpOp := [.ge, .le, .ne, .eq, .gt, .lt, .hasSub]

/-- Python `expr.split(pat, 1)` when `pat` occurs: the part before the first
occurrence and the part after it; `none` when `pat` does not occur. -/
def splitFirst (pat : List Char) : List Char → Option (List Char × List Char)
  | [] => none
  | c :: cs =>
    if pat.isPrefixOf (c :: cs) then some ([], (c :: cs).drop pat.length)
    else
      match splitFirst pat cs with
      | some (l, r) => some (c :: l, r)
      | none => none

/-- Python substring test `pat in s` (for a possibly empty pattern). -/
def listContainsSub (s pat : List Char) : Bool :=
  if pat.isEmpty then true
  else
    match s with
    | [] => false
    | _ :: tail => pat.isPrefixOf s || listContainsSub tail pat

/-- The `for op in [...]` scan of `_evaluate_simple_condition`: the first
operator of the fixed list occurring in the expression, with the split sides. -/
def findOp (e : List Char) : Option (CmpOp × List Char × List Char) :=
  opsInOrder.findSome? fun op => (splitFirst (opPattern op) e).map fun p => (op, p.1, p.2)

/-- `left.strip().strip(chr(34))`: whitespace strip, then strip all surrounding
double quotes. -/
def cleanSide (l : List Char) : String := stripChar '\"' (pyStrip ⟨l⟩)

/-- `ExecutorEngine._evaluate_simple_condition` (executor.py lines 388 to 432),
on character lists.  Each `not ` layer strips at least four characters, so any
fuel above the input length makes the recursion structural and total. -/
def evalGo : Nat → List Char → Bool
  | 0, _ => false
  | fuel + 1, e =>
    let es := stripChars e
    if es.take 4 = ['n', 'o', 't', ' '] then !(evalGo fuel (es.drop 4))
    else
      match findOp es with
      | some (op, l, r) =>
        let left := cleanSide l
        let right := cleanSide r
        match op with
        | .eq => left == right
        | .ne => left != right
        | .hasSub => listContainsSub left.data right.data
        | .gt =>
          match parseFloat left, parseFloat right with
          | some a, some b => floatLt b a
          | _, _ => false
        | .ge =>
          match parseFloat left, parseFloat right with
          | some a, some b => floatLe b a
          | _, _ => false
        | .lt =>
          match parseFloat left, parseFloat right with
          | some a, some b => floatLt a b
          | _, _ => false
        | .le =>
          match parseFloat left, parseFloat right with
          | some a, some b => floatLe a b
          | _, _ => false
      | none =>
        if pyLower ⟨es⟩ = "true" then true
        else if pyLower ⟨es⟩ = "false" then false
        else !es.isEmpty

/-- `ExecutorEngine._evaluate_simple_condition` on character lists, with
adequate fuel. -/
def evalSimpleChars (e : List Char) : Bool := evalGo (e.length + 1) e

/-- `ExecutorEngine._evaluate_simple_condition` on strings. -/
def evaluate_simple_condition (expr : String) : Bool := evalSimpleChars expr.data

/-- `ExecutorEngine._evaluate_condition` (executor.py lines 361 to 386):
interpolate, split once on the first ` and ` (else first ` or `), evaluate the
halves as simple conditions. -/
def evaluate_condition (ctx : Ctx) (expression : String) : Bool :=
  let interpolated := (interpolate_string ctx expression).data
  match splitFirst [' ', 'a', 'n', 'd', ' '] interpolated with
  | some (l, r) => evalSimpleChars l && evalSimpleChars r
  | none =>
    match splitFirst [' ', 'o', 'r', ' '] interpolated with
    | some (l, r) => evalSimpleChars l || evalSimpleChars r
    | none => evalSimpleChars interpolated

/-! ## Event log and state manager (state_manager.py)

The ISO timestamp attached to every event carries no semantics used by any
claim and is omitted; the durable file write of every append is modelled by the
in-memory list itself (append-only growth). -/

/-- One event of the log (state_manager.py, `Event`). -/
structure Event where
  event_type : String
  step_id : Option String
  payload : List (String × Value)
deriving Repr

/-- `get_last_successful_step` (state_manager.py lines 117 to 132): the step id
of the most recent `STEP_SUCCESS` event carrying a truthy step id. -/
def get_last_successful_step (events : List Event) : Option String :=
  (events.reverse.find? fun e =>
    e.event_type == "STEP_SUCCESS" && optStrTruthy e.step_id).bind (fun e => e.step_id)

/-- `get_loop_counter` (state_manager.py lines 135 to 150): fold over the log,
taking the stored counter of each matching `LOOP_ITERATION` event (the
interpreter always stores an integer there; the dynamic fallthrough for a
missing key is the previous count plus one, as in the source default). -/
def get_loop_counter (events : List Event) (loop_id : String) : Int :=
  events.foldl
    (fun count e =>
      if e.event_type == "LOOP_ITERATION" && e.step_id == some loop_id then
        match e.payload.lookup "counter" with
        | some (.vInt n) => n
        | some _ => count + 1
        | none => count + 1
      else count)
    0

/-- Specification reading for the resume query: the highest integer counter
among the `LOOP_ITERATION` events of the given loop id, and 0 when there is
none. -/
def maxLoopCounter (events : List Event) (loop_id : String) : Int :=
  events.foldl
    (fun acc e =>
      if e.event_type == "LOOP_ITERATION" && e.step_id == some loop_id then
        match e.payload.lookup "counter" with
        | some (.vInt n) => max acc n
        | _ => acc
      else acc)
    0

/-! ## AOL data model (core/models.py) -/

/-- `AOLOnFailure.strategy` (a pydantic `Literal`). -/
inductive Strategy where
  | abort | retry | skip | fallback | self_heal
deriving Repr, DecidableEq

/-- `AOLOnFailure`. -/
structure AOLOnFailure where
  strategy : Strategy
  max_retries : Option Int := none
  fallback_step : Option String := none
deriving Repr

/-- `AOLLoopBegin` (`max_iterations` defaults to 100 in the schema). -/
structure AOLLoopBegin where
  max_iterations : Int := 100
deriving Repr

/-- `AOLLoopEnd`. -/
structure AOLLoopEnd where
  loop_id : String
  exit_when : String
deriving Repr

/-- `AOLSwitchCase` (`match` is a Lean keyword, hence the trailing underscore). -/
structure AOLSwitchCase where
  match_ : String
  steps : List String
deriving Repr

/-- `AOLSwitch`. -/
structure AOLSwitch where
  value : String
  cases : List AOLSwitchCase
  default : Option (List String) := none
deriving Repr

/-- `AOLStep`; the `condition` field holds the `if` expression of the nested
`AOLCondition` record. -/
structure AOLStep where
  id : String
  description : Option String := none
  extension : Option String := none
  tool : Option String := none
  inputs : List (String × Value) := []
  outputs : List (String × Value) := []
  condition : Option String := none
  on_failure : Option AOLOnFailure := none
  timeout : Option String := none
  loop_begin : Option AOLLoopBegin := none
  loop_end : Option AOLLoopEnd := none
  switch : Option AOLSwitch := none
deriving Repr

/-- `AOLEntitlement`. -/
structure AOLEntitlement where
  scope : String
  capability : String
deriving Repr

/-- `AOLProvider`. -/
structure AOLProvider where
  name : String
  context : List (String × Value) := []
  entitlements : List AOLEntitlement := []
deriving Repr

/-- `AOLUserInputs`. -/
structure AOLUserInputs where
  prompt : String
  resources : List String := []
deriving Repr

/-- `AOLWorkflow`. -/
structure AOLWorkflow where
  provider : AOLProvider
  user_inputs : AOLUserInputs
  steps : List AOLStep
deriving Repr

/-! ## Loader validators (aol_parser.py) -/

/-- Accumulator of `_validate_loop_structure`: the error list, the stack of
open loops (top of stack at the head) and the `loop_id -> index` map of seen
`loop_begin` steps (later duplicates overwrite). -/
structure LoopValState where
  errors : List String
  loop_stack : List (String × Nat)
  loop_begins : List (String × Nat)
deriving Repr

/-- One iteration of the `_validate_loop_structure` scan (aol_parser.py lines
120 to 144). -/
def loopValStep (st : LoopValState) (idx : Nat) (step : AOLStep) : LoopValState :=
  let st :=
    if step.loop_begin.isSome then
      { st with loop_stack := (step.id, idx) :: st.loop_stack,
                loop_begins := updAssoc st.loop_begins step.id idx }
    else st
  match step.loop_end with
  | none => st
  | some le =>
    let loop_id := le.loop_id
    match st.loop_begins.lookup loop_id with
    | none =>
      { st with errors := st.errors ++
          ["Step \x27" ++ step.id ++ "\x27: loop_end references \x27" ++ loop_id ++
           "\x27 but no loop_begin found"] }
    | some bidx =>
      if bidx ≥ idx then
        { st with errors := st.errors ++
            ["Step \x27" ++ step.id ++ "\x27: loop_end must come after loop_begin \x27" ++
             loop_id ++ "\x27"] }
      else
        match st.loop_stack with
        | [] => st
        | (expected, _) :: tail =>
          if loop_id ≠ expected then
            { st with errors := st.errors ++
                ["Step \x27" ++ step.id ++ "\x27: expected loop_end for \x27" ++ expected ++
                 "\x27, got \x27" ++ loop_id ++ "\x27 (invalid nesting)"] }
          else { st with loop_stack := tail }

/-- `_validate_loop_structure` (aol_parser.py lines 114 to 150). -/
def validate_loop_structure (steps : List AOLStep) : List String :=
  let final := steps.enum.foldl (fun st p => loopValStep st p.1 p.2)
    (LoopValState.mk [] [] [])
  final.errors ++ final.loop_stack.reverse.map (fun p =>
    "Loop \x27" ++ p.1 ++ "\x27 (step index " ++ toString p.2 ++
    ") is never closed with loop_end")

/-- The well-formedness of loop structure in the words of the claim: control
markers are mutually exclusive, every `loop_end` closes the innermost open
loop (which therefore began earlier), every opened loop is closed by exactly
one `loop_end`, and no loop is left open. -/
def loopsWFFrom : List AOLStep → List String → Bool
  | [], stack => stack.isEmpty
  | step :: rest, stack =>
    if step.loop_begin.isSome && (step.loop_end.isSome || step.switch.isSome) then false
    else if step.loop_end.isSome && step.switch.isSome then false
    else if step.loop_begin.isSome then loopsWFFrom rest (step.id :: stack)
    else
      match step.loop_end with
      | some le =>
        match stack with
        | top :: s => top == le.loop_id && loopsWFFrom rest s
        | [] => false
      | none => loopsWFFrom rest stack

/-- Well-formed loop structure of a whole step list. -/
def loopsWellFormed (steps : List AOLStep) : Bool := loopsWFFrom steps []

/-- `_validate_step_references` (aol_parser.py lines 85 to 111). -/
def validate_step_references (steps : List AOLStep) (step_ids : List String) :
    List String :=
  steps.foldl
    (fun errors step =>
      let e1 :=
        match step.loop_end with
        | some le =>
          if step_ids.contains le.loop_id then []
          else ["Step \x27" ++ step.id ++ "\x27: loop_end references unknown loop_id \x27" ++
                le.loop_id ++ "\x27"]
        | none => []
      let e2 :=
        match step.switch with
        | some sw =>
          (sw.cases.foldl
            (fun acc c => acc ++
              (c.steps.filter (fun r => !(step_ids.contains r))).map (fun r =>
                "Step \x27" ++ step.id ++ "\x27: switch case references unknown step \x27" ++
                r ++ "\x27")) []) ++
          (match sw.default with
           | some ds =>
             (ds.filter (fun r => !(step_ids.contains r))).map (fun r =>
               "Step \x27" ++ step.id ++ "\x27: switch default references unknown step \x27" ++
               r ++ "\x27")
           | none => [])
        | none => []
      let e3 :=
        match step.on_failure with
        | some of =>
          match of.fallback_step with
          | some fb =>
            if !fb.isEmpty && !(step_ids.contains fb) then
              ["Step \x27" ++ step.id ++ "\x27: fallback_step references unknown step \x27" ++
               fb ++ "\x27"]
            else []
          | none => []
        | none => []
      errors ++ e1 ++ e2 ++ e3)
    []

/-- `validate_dependencies` (aol_parser.py lines 51 to 82).  The registry is
abstracted to its membership test; the Python set of required extensions is
iterated in first-occurrence order (its order only affects messages, never
emptiness). -/
def validate_dependencies (registry : String → Bool) (wf : AOLWorkflow) :
    Bool × List String :=
  let required := (wf.steps.filterMap (fun s =>
    if optStrTruthy s.extension then s.extension else none)).dedup
  let extErrors := (required.filter (fun e => !(registry e))).map (fun e =>
    "Extension \x27" ++ e ++ "\x27 not found in registry")
  let step_ids := wf.steps.map (fun s => s.id)
  let errors := extErrors ++ validate_step_references wf.steps step_ids ++
    validate_loop_structure wf.steps
  (errors.isEmpty, errors)

/-! ## Tool dispatcher result (mcp_client.py) -/

/-- `ExecutionResult` (mcp_client.py lines 16 to 33). -/
structure ExecutionResult where
  stdout : String := ""
  stderr : String := ""
  exit_code : Int := 0
  result : List (String × Value) := []
  is_error : Bool := false
deriving Repr

/-- `ExecutionResult.to_context`. -/
def ExecutionResult.to_context (r : ExecutionResult) : CtxEntry :=
  [("stdout", .vStr (pyStrip r.stdout)),
   ("stderr", .vStr (pyStrip r.stderr)),
   ("exit_code", .vStr (toString r.exit_code)),
   ("result", .vDict r.result),
   ("is_error", .vBool r.is_error)]

/-- Python `opt or dflt` on an `Optional[str]`. -/
def pyOr (o : Option String) (d : String) : String :=
  match o with
  | some s => if s.isEmpty then d else s
  | none => d

/-! ## The executor engine (executor.py) -/

/-- The external world the engine interacts with.  The interpreter is
deterministic given this record; claims quantify over every environment. -/
structure Env where
  /-- Membership test of `Registry.get_extension` (core/registry.py). -/
  registry : String → Bool
  /-- Modelled from the spec: `paws.security.verify_entitlements` together
  with `extract_paths_from_inputs` (the `paws.security` module is not under
  `src/`).  The observable step-level outcome of the entitlement loop in
  `_execute_step` is either permission (`none`) or the reason string of the
  first denial (`some reason`). -/
  entitlementDenial : AOLStep → Option String
  /-- An exception raised by `load_extension_instance` for the given extension
  name (`none` when loading succeeds). -/
  loadError : String → Option String
  /-- `send_payload`: the normalized result of the n-th tool invocation of the
  run (the counter models the passage of the external world, letting retries
  observe different outcomes).  `send_payload` never raises. -/
  invoke : Nat → String → String → List (String × Value) → ExecutionResult
  /-- The file-existence error list produced by the output validator
  (validator.py lines 42 to 51); it depends on the file system, which is
  abstracted here. -/
  fileErrors : ExecutionResult → List (String × Value) → String → List String

/-- `validate_step` (validator.py lines 14 to 59): the execution-error check is
concrete; the expected-output file checks come from the file-system oracle. -/
def validate_step (env : Env) (step_output : ExecutionResult)
    (expected_outputs : List (String × Value)) (step_id : String) :
    Bool × List String :=
  let errors :=
    (if step_output.is_error then
      ["Step \x27" ++ step_id ++ "\x27 returned error: " ++
        (if !step_output.stderr.isEmpty then step_output.stderr else step_output.stdout)]
     else []) ++ env.fileErrors step_output expected_outputs step_id
  (errors.isEmpty, errors)

/-- Engine state: Context Store, loop counters, the event log so far, and the
count of tool invocations already made (the clock of the `invoke` oracle). -/
structure ExecState where
  context : Ctx
  loop_counters : List (String × Int)
  log : List Event
  calls : Nat
deriving Repr

/-- `append_event` (state_manager.py lines 83 to 114). -/
def appendEvent (st : ExecState) (event_type : String) (step_id : Option String)
    (payload : List (String × Value)) : ExecState :=
  { st with log := st.log ++ [⟨event_type, step_id, payload⟩] }

mutual

/-- `ExecutorEngine._interpolate_dict` (executor.py lines 454 to 469). -/
def interpolate_dict (ctx : Ctx) : List (String × Value) → List (String × Value)
  | [] => []
  | (k, v) :: rest => (k, interpolateEntry ctx v) :: interpolate_dict ctx rest

/-- Dispatch on one dictionary value: strings are interpolated, nested
dictionaries recursed into, lists handled shallowly, all else kept. -/
def interpolateEntry (ctx : Ctx) : Value → Value
  | .vStr s => .vStr (interpolate_string ctx s)
  | .vDict m => .vDict (interpolate_dict ctx m)
  | .vList xs => .vList (interpolateShallowList ctx xs)
  | v => v

/-- List values: only string elements are interpolated (nested dictionaries in
lists are left untouched by the source). -/
def interpolateShallowList (ctx : Ctx) : List Value → List Value
  | [] => []
  | .vStr s :: rest => .vStr (interpolate_string ctx s) :: interpolateShallowList ctx rest
  | v :: rest => v :: interpolateShallowList ctx rest

end

/-- `ExecutorEngine._execute_step` (executor.py lines 149 to 239). -/
def execute_step (env : Env) (st : ExecState) (step : AOLStep) : Bool × ExecState :=
  let condFalse :=
    match step.condition with
    | some c => !(evaluate_condition st.context c)
    | none => false
  if condFalse then
    let st := appendEvent st "STEP_SKIPPED" (some step.id)
      [("reason", .vStr "Condition false")]
    let st := { st with context := updAssoc st.context step.id [("skipped", .vBool true)] }
    (true, st)
  else
    let st := appendEvent st "STEP_START" (some step.id) []
    match (if optStrTruthy step.extension then env.entitlementDenial step else none) with
    | some reason =>
      let st := appendEvent st "STEP_FAILURE" (some step.id)
        [("error", .vStr ("Entitlement check failed: " ++ reason))]
      (false, st)
    | none =>
      if !(optStrTruthy step.extension) then (true, st)
      else
        let ext := step.extension.getD ""
        if !(env.registry ext) then
          let st := appendEvent st "STEP_FAILURE" (some step.id)
            [("error", .vStr ("Extension not found: " ++ ext))]
          (false, st)
        else
          match env.loadError ext with
          | some e =>
            let st := appendEvent st "STEP_FAILURE" (some step.id) [("error", .vStr e)]
            (false, st)
          | none =>
            let interpolated_inputs := interpolate_dict st.context step.inputs
            let tool_name := pyOr step.tool "execute_command"
            let result := env.invoke st.calls ext tool_name interpolated_inputs
            let st := { st with calls := st.calls + 1 }
            let st := { st with context := updAssoc st.context step.id result.to_context }
            let v := validate_step env result step.outputs step.id
            if result.is_error || !v.1 then
              let st := appendEvent st "STEP_FAILURE" (some step.id)
                [("stdout", .vStr result.stdout), ("stderr", .vStr result.stderr),
                 ("exit_code", .vInt result.exit_code),
                 ("validation_errors", .vList (v.2.map .vStr))]
              (false, st)
            else
              let st := appendEvent st "STEP_SUCCESS" (some step.id)
                [("stdout", .vStr result.stdout), ("exit_code", .vInt result.exit_code)]
              (true, st)

/-- The forward scan of `_handle_loop_begin` (executor.py lines 262 to 266) for
the matching `loop_end` strictly after the current index. -/
def findLoopEndFrom (steps : List AOLStep) (start : Nat) (loop_id : String) :
    Option Nat :=
  match (steps.drop start).findIdx? (fun s =>
    match s.loop_end with
    | some le => le.loop_id == loop_id
    | none => false) with
  | some i => some (start + i)
  | none => none

/-- `ExecutorEngine._handle_loop_begin` (executor.py lines 241 to 268). -/
def handle_loop_begin (st : ExecState) (step : AOLStep) (current_index : Nat)
    (steps : List AOLStep) : ExecState × Nat :=
  let loop_id := step.id
  let counter := ((st.loop_counters.lookup loop_id).getD 0) + 1
  let st := { st with loop_counters := updAssoc st.loop_counters loop_id counter }
  let counterEntry : CtxEntry := [("counter", .vStr (toString counter))]
  let st := { st with context := updAssoc st.context loop_id counterEntry }
  let st := appendEvent st "LOOP_ITERATION" (some loop_id) [("counter", .vInt counter)]
  let max_iter := (step.loop_begin.getD ⟨100⟩).max_iterations
  if max_iter > 0 && counter > max_iter then
    match findLoopEndFrom steps (current_index + 1) loop_id with
    | some idx => (st, idx + 1)
    | none => (st, steps.length)
  else (st, current_index + 1)

/-- The dict comprehension `step_id_to_index` of `run_workflow` (executor.py
line 114): later duplicate ids overwrite earlier ones. -/
def step_id_to_index (steps : List AOLStep) (sid : String) : Option Nat :=
  steps.enum.foldl (fun acc p => if p.2.id = sid then some p.1 else acc) none

/-- `ExecutorEngine._handle_loop_end` (executor.py lines 270 to 284); `none`
models the uncaught `KeyError` on an unresolvable loop id (unreachable once
`validate_dependencies` has passed). -/
def handle_loop_end (st : ExecState) (step : AOLStep) (current_index : Nat)
    (steps : List AOLStep) : Option (ExecState × Nat) :=
  match step.loop_end with
  | none => none
  | some le =>
    if evaluate_condition st.context le.exit_when then some (st, current_index + 1)
    else
      match step_id_to_index steps le.loop_id with
      | some idx => some (st, idx)
      | none => none

/-- The case scan of `_handle_switch` (executor.py lines 292 to 296): the
`steps` list of the first case whose `match` equals the value. -/
def findMatchedSteps : List AOLSwitchCase → String → Option (List String)
  | [], _ => none
  | c :: cs, v => if v = c.match_ then some c.steps else findMatchedSteps cs v

/-- `ExecutorEngine._handle_switch` (executor.py lines 286 to 307).  The
selection is returned as an observable (the source only prints it); the
instruction pointer always advances by one. -/
def handle_switch (st : ExecState) (step : AOLStep) (current_index : Nat) :
    List String × ExecState × Nat :=
  match step.switch with
  | none => ([], st, current_index + 1)
  | some sw =>
    let value := interpolate_string st.context sw.value
    let matched_steps := (findMatchedSteps sw.cases value).getD (sw.default.getD [])
    (matched_steps, st, current_index + 1)

/-- The effective retry budget `step.on_failure.max_retries or 3` (executor.py
line 329): Python `or` maps both `None` and `0` to the default 3. -/
def retry_budget (m : Option Int) : Int :=
  match m with
  | none => 3
  | some k => if k = 0 then 3 else k

/-- The `for attempt in range(max_retries)` loop of the retry strategy
(executor.py lines 330 to 333). -/
def retryLoop (env : Env) : Nat → ExecState → AOLStep → Bool × ExecState
  | 0, st, _ => (false, st)
  | n + 1, st, step =>
    let r := execute_step env st step
    if r.1 then (true, r.2) else retryLoop env n r.2 step

/-- `ExecutorEngine._handle_failure` (executor.py lines 309 to 359). -/
def handle_failure (env : Env) (wf : AOLWorkflow) (st : ExecState) (step : AOLStep) :
    Bool × ExecState :=
  match step.on_failure with
  | none => (false, st)
  | some of =>
    match of.strategy with
    | .abort => (false, st)
    | .skip => (true, st)
    | .retry => retryLoop env (retry_budget of.max_retries).toNat st step
    | .fallback =>
      match of.fallback_step with
      | some fid =>
        if fid.isEmpty then (false, st)
        else
          match wf.steps.find? (fun s => s.id == fid) with
          | some s => execute_step env st s
          | none => (false, st)
      | none => (false, st)
    | .self_heal => (false, st)

/-- The `while step_index < len(steps)` loop of `run_workflow` (executor.py
lines 116 to 147), with explicit fuel; `none` is a run that has not terminated
within the fuel (or hit the unreachable `KeyError` of `_handle_loop_end`). -/
def runSteps (env : Env) (wf : AOLWorkflow) :
    Nat → ExecState → Nat → Option (Bool × ExecState)
  | 0, _, _ => none
  | fuel + 1, st, ip =>
    match wf.steps[ip]? with
    | none => some (true, appendEvent st "WORKFLOW_COMPLETE" none [])
    | some step =>
      if step.loop_begin.isSome then
        let r := handle_loop_begin st step ip wf.steps
        runSteps env wf fuel r.1 r.2
      else if step.loop_end.isSome then
        match handle_loop_end st step ip wf.steps with
        | some r => runSteps env wf fuel r.1 r.2
        | none => none
      else if step.switch.isSome then
        let r := handle_switch st step ip
        runSteps env wf fuel r.2.1 r.2.2
      else
        let r := execute_step env st step
        if r.1 then runSteps env wf fuel r.2 (ip + 1)
        else
          let h := handle_failure env wf r.2 step
          if h.1 then runSteps env wf fuel h.2 (ip + 1)
          else some (false, appendEvent h.2 "WORKFLOW_ABORTED" (some step.id)
            [("reason", .vStr "Step failed with abort strategy")])

/-- `user_inputs.model_dump()`. -/
def dumpUserInputs (ui : AOLUserInputs) : List (String × Value) :=
  [("prompt", .vStr ui.prompt), ("resources", .vList (ui.resources.map .vStr))]

/-- `provider.model_dump()`. -/
def dumpProvider (p : AOLProvider) : List (String × Value) :=
  [("name", .vStr p.name), ("context", .vDict p.context),
   ("entitlements", .vList (p.entitlements.map (fun e =>
     .vDict [("scope", .vStr e.scope), ("capability", .vStr e.capability)])))]

/-- The `STATE_ZERO` event written by `initialize_state` (state_manager.py
lines 53 to 80). -/
def stateZeroEvent (wf : AOLWorkflow) : Event :=
  ⟨"STATE_ZERO", none, [("user_inputs", .vDict (dumpUserInputs wf.user_inputs))]⟩

/-- Outcome of `run_workflow`: rejected by validation (before any log exists),
or finished with a success flag and final state. -/
inductive RunOutcome where
  | invalid (errors : List String)
  | finished (success : Bool) (st : ExecState)

/-- The event log the engine starts from: the prior file content on a resumed
run whose log file exists, else a fresh log holding only `STATE_ZERO`
(executor.py lines 84 to 93). -/
def initialLog (wf : AOLWorkflow) (resume : Bool) (priorLog : Option (List Event)) :
    List Event :=
  match resume, priorLog with
  | true, some l => l
  | _, _ => [stateZeroEvent wf]

/-- `ExecutorEngine.run_workflow` (executor.py lines 53 to 147).  The workflow
document is taken already loaded (the YAML loader is file I/O); `priorLog` is
the content of the log file when it exists. -/
def run_workflow (env : Env) (wf : AOLWorkflow) (resume : Bool)
    (priorLog : Option (List Event)) (fuel : Nat) : Option RunOutcome :=
  let v := validate_dependencies env.registry wf
  if !v.1 then some (.invalid v.2)
  else
    let log0 : List Event := initialLog wf resume priorLog
    let ctx0 : Ctx := updAssoc (updAssoc [] "user_inputs" (dumpUserInputs wf.user_inputs))
      "provider" (dumpProvider wf.provider)
    let last_success := if resume then get_last_successful_step log0 else none
    let start_index :=
      match last_success with
      | none => 0
      | some sid =>
        match wf.steps.findIdx? (fun s => s.id == sid) with
        | some i => i + 1
        | none => 0
    match runSteps env wf fuel ⟨ctx0, [], log0, 0⟩ start_index with
    | none => none
    | some r => some (.finished r.1 r.2)

/-- The `__main__` exit status (executor.py lines 493 to 501): 0 exactly on a
successfully finished run. -/
def cli_exit_code (r : RunOutcome) : Int :=
  match r with
  | .finished true _ => 0
  | _ => 1

/-! ## Specification-side predicates used by the claims -/

/-- The integer counters of the `LOOP_ITERATION` events of one loop id, in log
order. -/
def loopCounterValues (events : List Event) (loop_id : String) : List Int :=
  events.filterMap (fun e =>
    if e.event_type == "LOOP_ITERATION" && e.step_id == some loop_id then
      match e.payload.lookup "counter" with
      | some (.vInt n) => some n
      | _ => none
    else none)

/-- Every `STEP_SUCCESS` or `STEP_FAILURE` event of the log is preceded by a
`STEP_START` event of the same step id. -/
def precededOk (log : List Event) : Prop :=
  ∀ i : Fin log.length,
    ((log.get i).event_type = "STEP_SUCCESS" ∨ (log.get i).event_type = "STEP_FAILURE") →
    ∃ j : Fin log.length, (j : Nat) < (i : Nat) ∧
      (log.get j).event_type = "STEP_START" ∧ (log.get j).step_id = (log.get i).step_id

/-- Every Context Store entry other than the two reserved ones belongs to a
step id for which the log records a `STEP_SUCCESS`, `STEP_SKIPPED`,
`STEP_FAILURE` or `LOOP_ITERATION` event. -/
def ctxEventInv (st : ExecState) : Prop :=
  ∀ p ∈ st.context, p.1 = "user_inputs" ∨ p.1 = "provider" ∨
    ∃ e ∈ st.log, e.step_id = some p.1 ∧
      (e.event_type = "STEP_SUCCESS" ∨ e.event_type = "STEP_SKIPPED" ∨
       e.event_type = "STEP_FAILURE" ∨ e.event_type = "LOOP_ITERATION")

/-- The `WORKFLOW_ABORTED` event written for a failing step. -/
def abortEvent (id : String) : Event :=
  ⟨"WORKFLOW_ABORTED", some id, [("reason", .vStr "Step failed with abort strategy")]⟩

/-- The final state after a terminal step failure: the state left by the
failure handler, extended with the abort event. -/
def abortedState (env : Env) (wf : AOLWorkflow) (st : ExecState) (step : AOLStep) :
    ExecState :=
  appendEvent (handle_failure env wf (execute_step env st step).2 step).2
    "WORKFLOW_ABORTED" (some step.id)
    [("reason", .vStr "Step failed with abort strategy")]

/-- The seeded Context Store at the start of every run (executor.py lines 95
to 97). -/
def initialCtx (wf : AOLWorkflow) : Ctx :=
  updAssoc (updAssoc [] "user_inputs" (dumpUserInputs wf.user_inputs))
    "provider" (dumpProvider wf.provider)

/-! ## Concrete fixtures for the claim witnesses and counterexamples -/

/-- An environment where every extension exists, every action is entitled and
every tool call prints `hello` and succeeds. -/
def envAllOk : Env :=
  { registry := fun _ => true,
    entitlementDenial := fun _ => none,
    loadError := fun _ => none,
    invoke := fun _ _ _ _ => { stdout := "hello" },
    fileErrors := fun _ _ _ => [] }

/-- Like `envAllOk`, but every tool call reports an error. -/
def envToolError : Env :=
  { envAllOk with invoke := fun _ _ _ _ =>
      { stderr := "boom", exit_code := 1, is_error := true } }

/-- A regular one-step workflow. -/
def s1step : AOLStep :=
  { id := "s1", extension := some "Bash", inputs := [("command", .vStr "echo hello")] }

/-- One regular step. -/
def wf1 : AOLWorkflow :=
  { provider := { name := "Localhost" },
    user_inputs := { prompt := "p" },
    steps := [s1step] }

/-- One step guarded by an always-false condition. -/
def wfSkip : AOLWorkflow :=
  { provider := { name := "L" },
    user_inputs := { prompt := "p" },
    steps := [{ id := "s1", condition := some "false" }] }

/-- A regular step followed by an extension-less placeholder step. -/
def wf2 : AOLWorkflow :=
  { provider := { name := "L" },
    user_inputs := { prompt := "p" },
    steps := [{ id := "s1", extension := some "Bash" }, { id := "s2" }] }

/-- A retry step with an explicit `max_retries` of zero. -/
def stepRetry0 : AOLStep :=
  { id := "r", extension := some "Bash",
    on_failure := some { strategy := .retry, max_retries := some 0 } }

/-- Workflow around `stepRetry0`. -/
def wfRetry0 : AOLWorkflow :=
  { provider := { name := "L" }, user_inputs := { prompt := "p" }, steps := [stepRetry0] }

/-- The empty engine state. -/
def st0 : ExecState := ⟨[], [], [], 0⟩

/-- The engine state at the top of the step loop for a fresh run of `wf1`. -/
def c5initSt : ExecState := ⟨initialCtx wf1, [], [stateZeroEvent wf1], 0⟩

/-- A log whose `LOOP_ITERATION` counters are not monotone: the later event
carries the smaller counter. -/
def c4log : List Event :=
  [⟨"LOOP_ITERATION", some "L", [("counter", .vInt 2)]⟩,
   ⟨"LOOP_ITERATION", some "L", [("counter", .vInt 1)]⟩]

/-- A loop opened at `A` and closed twice. -/
def stepBeginA : AOLStep := { id := "A", loop_begin := some { max_iterations := 5 } }

/-- First closer of loop `A`. -/
def stepEndA : AOLStep := { id := "EA", loop_end := some { loop_id := "A", exit_when := "true" } }

/-- Second, duplicate closer of loop `A`. -/
def stepEndA2 : AOLStep := { id := "EB", loop_end := some { loop_id := "A", exit_when := "true" } }

/-- Step list with a duplicate `loop_end`. -/
def c7steps : List AOLStep := [stepBeginA, stepEndA, stepEndA2]

/-- A switch step with one case. -/
def c9switch : AOLSwitch :=
  { value := "x", cases := [{ match_ := "x", steps := ["a"] }], default := none }

/-- The step carrying `c9switch`. -/
def c9step : AOLStep := { id := "sw", switch := some c9switch }

/-- Workflow around `c9step` (the referenced step `a` exists). -/
def wfSwitch : AOLWorkflow :=
  { provider := { name := "L" }, user_inputs := { prompt := "p" },
    steps := [c9step, { id := "a" }] }

/-- The log of a finished run (empty for unfinished or rejected ones). -/
def runLogOf (r : Option RunOutcome) : List Event :=
  match r with
  | some (.finished _ st) => st.log
  | _ => []

/-- The Context Store of a finished run. -/
def runCtxOf (r : Option RunOutcome) : Ctx :=
  match r with
  | some (.finished _ st) => st.context
  | _ => []

/-- The success flag of a finished run. -/
def runSuccessOf (r : Option RunOutcome) : Bool :=
  match r with
  | some (.finished b _) => b
  | _ => false

/-- The event log written by the completed fresh run of `wf1`. -/
def c6log : List Event := runLogOf (run_workflow envAllOk wf1 false none 10)

/-- The final state of the fresh run of `wfSkip` (its only step is skipped). -/
def skipFinalSt : ExecState :=
  { context := updAssoc (initialCtx wfSkip) "s1" [("skipped", .vBool true)],
    loop_counters := [],
    log := [stateZeroEvent wfSkip,
      ⟨"STEP_SKIPPED", some "s1", [("reason", .vStr "Condition false")]⟩,
      ⟨"WORKFLOW_COMPLETE", none, []⟩],
    calls := 0 }

/-! # Theorems -/

theorem foldCounter_getLastD (loop_id : String) :
    ∀ (events : List Event) (a : Int),
      (∀ e ∈ events,
        (e.event_type == "LOOP_ITERATION" && e.step_id == some loop_id) = true →
        ∃ n : Int, e.payload.lookup "counter" = some (.vInt n)) →
      events.foldl
        (fun count e =>
          if e.event_type == "LOOP_ITERATION" && e.step_id == some loop_id then
            match e.payload.lookup "counter" with
            | some (.vInt n) => n
            | some _ => count + 1
            | none => count + 1
          else count) a
        = (loopCounterValues events loop_id).getLastD a := by
  intro events
  induction events with
  | nil => intro a _; simp [loopCounterValues]
  | cons e rest ih =>
    intro a h
    have htail := fun e' he' => h e' (List.mem_cons_of_mem e he')
    by_cases hm : (e.event_type == "LOOP_ITERATION" && e.step_id == some loop_id) = true
    · obtain ⟨n, hn⟩ := h e (List.mem_cons_self e rest) hm
      have hval : loopCounterValues (e :: rest) loop_id =
          n :: loopCounterValues rest loop_id := by
        simp only [loopCounterValues, List.filterMap_cons, if_pos hm, hn]
      rw [hval, List.getLastD_cons, List.foldl_cons]
      simpa [hm, hn] using ih n htail
    · have hval : loopCounterValues (e :: rest) loop_id =
          loopCounterValues rest loop_id := by
        simp only [loopCounterValues, List.filterMap_cons, if_neg hm]
      rw [hval, List.foldl_cons]
      simpa [hm] using ih a htail

/-- C4: the loop-counter resume query does not return the highest counter of
the loop id in general; on every log whose matching `LOOP_ITERATION` events
carry integer counters it returns the counter of the most recent such event
(0 when there is none). -/
theorem c4_loop_counter_is_last :
    ∀ (events : List Event) (loop_id : String),
      (∀ e ∈ events,
        (e.event_type == "LOOP_ITERATION" && e.step_id == some loop_id) = true →
        ∃ n : Int, e.payload.lookup "counter" = some (.vInt n)) →
      get_loop_counter events loop_id = (loopCounterValues events loop_id).getLastD 0 := by
  intro events loop_id h
  exact foldCounter_getLastD loop_id events 0 h

/-- C4 counterexample: on a log whose counters decrease, the query returns the
last counter 1 while the highest is 2. -/
theorem c4_counterexample :
    get_loop_counter c4log "L" = 1 ∧ maxLoopCounter c4log "L" = 2 ∧
    get_loop_counter c4log "L" ≠ maxLoopCounter c4log "L" :=
  ⟨rfl, rfl, by decide⟩

/-- C4 witness: the amended statement applied to the concrete log `c4log`. -/
theorem c4_witness :
    get_loop_counter c4log "L" = (loopCounterValues c4log "L").getLastD 0 :=
  c4_loop_counter_is_last c4log "L" (by
    intro e he _
    simp only [c4log, List.mem_cons, List.not_mem_nil, or_false] at he
    rcases he with rfl | rfl
    · exact ⟨2, rfl⟩
    · exact ⟨1, rfl⟩)

theorem findMatchedSteps_eq_find :
    ∀ (cases : List AOLSwitchCase) (v : String),
      findMatchedSteps cases v =
        (cases.find? (fun c => v == c.match_)).map (fun c => c.steps) := by
  intro cases v
  induction cases with
  | nil => rfl
  | cons c cs ih =>
    by_cases h : v = c.match_
    · simp only [findMatchedSteps, if_pos h]
      rw [List.find?_cons_of_pos _ (by simp [h])]
      rfl
    · simp only [findMatchedSteps, if_neg h]
      rw [List.find?_cons_of_neg _ (by simp [h])]
      exact ih

/-- C9: a switch step interpolates its value, selects the steps list of the
first case whose match equals the interpolated value (the default list when no
case matches), and always advances the instruction pointer by exactly one,
changing no state — the interpreter never jumps to the selected steps. -/
theorem c9_switch_selects_but_never_jumps :
    ∀ (st : ExecState) (step : AOLStep) (ip : Nat) (sw : AOLSwitch),
      step.switch = some sw →
      (handle_switch st step ip).2.2 = ip + 1 ∧
      (handle_switch st step ip).2.1 = st ∧
      (handle_switch st step ip).1 =
        ((sw.cases.find? (fun c => interpolate_string st.context sw.value == c.match_)).map
          (fun c => c.steps)).getD (sw.default.getD []) ∧
      (∀ (env : Env) (wf : AOLWorkflow) (fuel : Nat),
        step.loop_begin = none → step.loop_end = none → wf.steps[ip]? = some step →
        runSteps env wf (fuel + 1) st ip = runSteps env wf fuel st (ip + 1)) := by
  intro st step ip sw hsw
  refine ⟨by simp [handle_switch, hsw], by simp [handle_switch, hsw],
    by simp [handle_switch, hsw, findMatchedSteps_eq_find], ?_⟩
  intro env wf fuel hb he hstep
  simp [runSteps, hstep, hb, he, hsw, handle_switch]

/-- C9 witness: the concrete switch step `c9step` inside `wfSwitch`. -/
theorem c9_witness :
    (handle_switch st0 c9step 0).2.2 = 0 + 1 ∧
    (handle_switch st0 c9step 0).2.1 = st0 ∧
    (handle_switch st0 c9step 0).1 =
      ((c9switch.cases.find?
          (fun c => interpolate_string st0.context c9switch.value == c.match_)).map
        (fun c => c.steps)).getD (c9switch.default.getD []) ∧
    runSteps envAllOk wfSwitch (3 + 1) st0 0 = runSteps envAllOk wfSwitch 3 st0 (0 + 1) := by
  obtain ⟨h1, h2, h3, h4⟩ := c9_switch_selects_but_never_jumps st0 c9step 0 c9switch rfl
  exact ⟨h1, h2, h3, h4 envAllOk wfSwitch 3 rfl rfl rfl⟩

/-- C10: a retry policy with `max_retries` absent or explicitly 0 performs the
default 3 attempts — Python `or` treats the explicit 0 like the absent field;
with an always-failing tool the handler writes exactly 3 `STEP_FAILURE`
events. -/
theorem c10_retry_zero_is_default_three :
    retry_budget none = 3 ∧ retry_budget (some 0) = 3 ∧
    (∀ (env : Env) (wf : AOLWorkflow) (st : ExecState) (step : AOLStep)
        (of : AOLOnFailure),
      step.on_failure = some of → of.strategy = .retry →
      (of.max_retries = none ∨ of.max_retries = some 0) →
      handle_failure env wf st step = retryLoop env 3 st step) ∧
    (handle_failure envToolError wfRetry0 st0 stepRetry0).2.log.countP
      (fun e => e.event_type == "STEP_FAILURE") = 3 := by
  refine ⟨rfl, rfl, ?_, by decide⟩
  intro env wf st step of hof hstrat hmr
  rcases hmr with h | h <;> simp [handle_failure, hof, hstrat, retry_budget, h]

/-- C10 witness: the general statement applied to the concrete retry step with
an explicit `max_retries` of 0. -/
theorem c10_witness :
    handle_failure envToolError wfRetry0 st0 stepRetry0 =
      retryLoop envToolError 3 st0 stepRetry0 :=
  c10_retry_zero_is_default_three.2.2.1 envToolError wfRetry0 st0 stepRetry0
    { strategy := .retry, max_retries := some 0 } rfl rfl (Or.inr rfl)

theorem lookup_map_set {β : Type} (k : String) (v : β) :
    ∀ m : List (String × β), (m.lookup k).isSome = true →
      (m.map (fun p => match p with | (a, b) => if a = k then (k, v) else (a, b))).lookup k
        = some v := by
  intro m
  induction m with
  | nil => intro h; simp [List.lookup] at h
  | cons p t ih =>
    intro h
    obtain ⟨pk, pv⟩ := p
    rw [List.map_cons]
    dsimp only
    by_cases hp : pk = k
    · subst hp
      rw [if_pos rfl]
      simp [List.lookup]
    · rw [if_neg hp]
      have hk : (k == pk) = false := by simp [Ne.symm hp]
      simp only [List.lookup, hk]
      exact ih (by simpa [List.lookup, hk] using h)

theorem lookup_map_set_ne {β : Type} (k k' : String) (v : β) (hne : k' ≠ k) :
    ∀ m : List (String × β),
      (m.map (fun p => match p with | (a, b) => if a = k then (k, v) else (a, b))).lookup k'
        = m.lookup k' := by
  intro m
  induction m with
  | nil => rfl
  | cons p t ih =>
    obtain ⟨pk, pv⟩ := p
    rw [List.map_cons]
    dsimp only
    by_cases hp : pk = k
    · subst hp
      rw [if_pos rfl]
      have hk : (k' == pk) = false := by simp [hne]
      simp only [List.lookup, hk]
      exact ih
    · rw [if_neg hp]
      by_cases hk : k' = pk
      · subst hk
        simp [List.lookup]
      · simp only [List.lookup, (by simp [hk] : (k' == pk) = false)]
        exact ih

theorem lookup_append_single {β : Type} (k : String) (v : β) :
    ∀ m : List (String × β), (m.lookup k).isSome = false →
      ((m ++ [(k, v)]).lookup k) = some v := by
  intro m
  induction m with
  | nil => simp [List.lookup]
  | cons p t ih =>
    intro h
    obtain ⟨pk, pv⟩ := p
    by_cases hk : k = pk
    · subst hk
      rw [show List.lookup k ((k, pv) :: t) = some pv from by simp [List.lookup]] at h
      simp at h
    · simp only [List.cons_append, List.lookup, (by simp [hk] : (k == pk) = false)]
      apply ih
      rwa [show List.lookup k ((pk, pv) :: t) = List.lookup k t from by
        simp [List.lookup, (by simp [hk] : (k == pk) = false)]] at h

theorem lookup_append_single_ne {β : Type} (k k' : String) (v : β) (hne : k' ≠ k) :
    ∀ m : List (String × β), ((m ++ [(k, v)]).lookup k') = m.lookup k' := by
  intro m
  induction m with
  | nil => simp [List.lookup, (by simp [hne] : (k' == k) = false)]
  | cons p t ih =>
    obtain ⟨pk, pv⟩ := p
    by_cases hk : k' = pk
    · simp [List.lookup, hk]
    · simp [List.lookup, (by simp [hk] : (k' == pk) = false), ih]

theorem lookup_updAssoc_self {β : Type} (m : List (String × β)) (k : String) (v : β) :
    (updAssoc m k v).lookup k = some v := by
  unfold updAssoc
  by_cases h : (m.lookup k).isSome
  · rw [if_pos h]; exact lookup_map_set k v m h
  · rw [if_neg h]
    exact lookup_append_single k v m (by rw [Bool.not_eq_true] at h; exact h)

theorem lookup_updAssoc_ne {β : Type} (m : List (String × β)) (k k' : String) (v : β)
    (hne : k' ≠ k) : (updAssoc m k v).lookup k' = m.lookup k' := by
  unfold updAssoc
  by_cases h : (m.lookup k).isSome
  · rw [if_pos h]; exact lookup_map_set_ne k k' v hne m
  · rw [if_neg h]; exact lookup_append_single_ne k k' v hne m

theorem lookup_updAssoc_isSome {β : Type} (m : List (String × β)) (k k' : String) (v : β)
    (h : (m.lookup k').isSome = true) : ((updAssoc m k v).lookup k').isSome = true := by
  by_cases hk : k' = k
  · subst hk; rw [lookup_updAssoc_self]; rfl
  · rw [lookup_updAssoc_ne m k k' v hk]; exact h

theorem mem_updAssoc {β : Type} {m : List (String × β)} {k : String} {v : β}
    {p : String × β} (h : p ∈ updAssoc m k v) : p.1 = k ∨ p ∈ m := by
  unfold updAssoc at h
  by_cases hc : (m.lookup k).isSome
  · rw [if_pos hc] at h
    rcases List.mem_map.mp h with ⟨q, hq, hq2⟩
    obtain ⟨qa, qb⟩ := q
    dsimp only at hq2
    by_cases hqk : qa = k
    · rw [if_pos hqk] at hq2
      left; rw [← hq2]
    · rw [if_neg hqk] at hq2
      right; rw [← hq2]; exact hq
  · rw [if_neg hc] at h
    rcases List.mem_append.mp h with h | h
    · right; exact h
    · left
      have : p = (k, v) := by simpa using h
      rw [this]

theorem loopval_go :
    ∀ (steps : List AOLStep) (i0 : Nat) (st : LoopValState),
      st.errors = [] →
      loopsWFFrom steps (st.loop_stack.map Prod.fst) = true →
      (∀ p ∈ st.loop_stack, ∃ j, st.loop_begins.lookup p.1 = some j ∧ j < i0) →
      ((steps.enumFrom i0).foldl (fun s q => loopValStep s q.1 q.2) st).errors = [] ∧
      ((steps.enumFrom i0).foldl (fun s q => loopValStep s q.1 q.2) st).loop_stack = [] := by
  intro steps
  induction steps with
  | nil =>
    intro i0 st herr hwf _
    simp only [List.enumFrom, List.foldl_nil]
    refine ⟨herr, ?_⟩
    simp only [loopsWFFrom, List.isEmpty_iff, List.map_eq_nil_iff] at hwf
    exact hwf
  | cons step rest ih =>
    intro i0 st herr hwf hinv
    simp only [List.enumFrom, List.foldl_cons]
    by_cases hb : step.loop_begin.isSome
    · have hg : (step.loop_begin.isSome && (step.loop_end.isSome || step.switch.isSome)) = false := by
        by_contra hc
        rw [loopsWFFrom, if_pos (by revert hc; cases hx : (step.loop_begin.isSome && (step.loop_end.isSome || step.switch.isSome)) <;> simp)] at hwf
        exact absurd hwf (by simp)
      rw [hb] at hg
      simp only [Bool.true_and, Bool.or_eq_false_iff] at hg
      have hend : step.loop_end = none := Option.not_isSome_iff_eq_none.mp (by simp [hg.1])
      rw [loopsWFFrom, if_neg (by simp [hb, hg.1, hg.2]), if_neg (by simp [hg.1]),
        if_pos hb] at hwf
      have hstep : loopValStep st i0 step =
          { st with loop_stack := (step.id, i0) :: st.loop_stack,
                    loop_begins := updAssoc st.loop_begins step.id i0 } := by
        simp [loopValStep, hb, hend]
      rw [hstep]
      refine ih (i0 + 1)
        { st with loop_stack := (step.id, i0) :: st.loop_stack,
                  loop_begins := updAssoc st.loop_begins step.id i0 }
        herr (by simpa using hwf) ?_
      intro p hp
      rcases List.mem_cons.mp hp with rfl | hp
      · exact ⟨i0, lookup_updAssoc_self _ _ _, Nat.lt_succ_self i0⟩
      · obtain ⟨j, hj, hjlt⟩ := hinv p hp
        by_cases hpk : p.1 = step.id
        · exact ⟨i0, by rw [hpk]; exact lookup_updAssoc_self _ _ _, Nat.lt_succ_self i0⟩
        · exact ⟨j, by rw [lookup_updAssoc_ne _ _ _ _ hpk]; exact hj,
            Nat.lt_succ_of_lt hjlt⟩
    · cases hend : step.loop_end with
      | none =>
        rw [loopsWFFrom, if_neg (by simp [hb]), if_neg (by simp [hend]), if_neg hb,
          hend] at hwf
        have hstep : loopValStep st i0 step = st := by
          simp [loopValStep, hb, hend]
        rw [hstep]
        refine ih (i0 + 1) st herr hwf ?_
        intro p hp
        obtain ⟨j, hj, hjlt⟩ := hinv p hp
        exact ⟨j, hj, Nat.lt_succ_of_lt hjlt⟩
      | some le =>
        have hsw : step.switch = none := by
          by_contra hc
          rw [loopsWFFrom, if_neg (by simp [hb]),
            if_pos (by simp [hend, Option.ne_none_iff_isSome.mp hc])] at hwf
          exact absurd hwf (by simp)
        rw [loopsWFFrom, if_neg (by simp [hb]), if_neg (by simp [hsw]), if_neg hb,
          hend] at hwf
        cases hstack : st.loop_stack with
        | nil => rw [hstack] at hwf; simp at hwf
        | cons tp tail =>
          obtain ⟨top, j0⟩ := tp
          rw [hstack] at hwf
          simp only [List.map_cons] at hwf
          rw [Bool.and_eq_true] at hwf
          have htop : top = le.loop_id := by simpa using hwf.1
          have hwfr : loopsWFFrom rest (tail.map Prod.fst) = true := hwf.2
          obtain ⟨j, hj, hjlt⟩ := hinv (top, j0) (by rw [hstack]; exact List.mem_cons_self _ _)
          have hb2 : step.loop_begin.isSome = false := by simpa using hb
          have hjj : st.loop_begins.lookup le.loop_id = some j := htop ▸ hj
          have hstep : loopValStep st i0 step = { st with loop_stack := tail } := by
            simp only [loopValStep, hb2, Bool.false_eq_true, if_false, hend, hjj, hstack]
            rw [if_neg (by omega)]
            rw [if_neg (by simp [htop])]
          rw [hstep]
          refine ih (i0 + 1) { st with loop_stack := tail } herr hwfr ?_
          intro p hp
          obtain ⟨j', hj', hjlt'⟩ := hinv p (by rw [hstack]; exact List.mem_cons_of_mem _ hp)
          exact ⟨j', hj', Nat.lt_succ_of_lt hjlt'⟩

/-- C7: the loop-structure validator is not exact: it accepts every
well-formed step list, but the converse direction of the claim fails (see the
counterexample with a duplicate `loop_end`). -/
theorem c7_wellformed_loops_accepted :
    ∀ steps : List AOLStep, loopsWellFormed steps = true →
      validate_loop_structure steps = [] := by
  intro steps hwf
  have h := loopval_go steps 0 (LoopValState.mk [] [] []) rfl (by simpa [loopsWellFormed] using hwf)
    (by intro p hp; simp at hp)
  unfold validate_loop_structure
  dsimp only
  rw [show List.enum steps = List.enumFrom 0 steps from rfl, h.1, h.2]
  rfl

/-- C7 counterexample: a list with a duplicate `loop_end` for an already
closed loop is not well-formed, yet the validator reports no errors, so the
validator does not accept exactly the well-formed lists. -/
theorem c7_counterexample :
    validate_loop_structure c7steps = [] ∧ loopsWellFormed c7steps = false :=
  ⟨rfl, rfl⟩

/-- C7 witness: the amended statement applied to a concrete well-formed list. -/
theorem c7_witness : validate_loop_structure [stepBeginA, stepEndA] = [] :=
  c7_wellformed_loops_accepted [stepBeginA, stepEndA] rfl

set_option maxHeartbeats 1600000 in
/-- C8: the numeric comparison operators parse both quote-stripped sides as
floating-point numbers and yield false whenever either side fails to parse;
the four boundary conditions of the claim evaluate as stated. -/
theorem c8_numeric_conditions :
    (∀ (expr : String) (op : CmpOp) (l r : List Char),
      (stripChars expr.data).take 4 ≠ ['n', 'o', 't', ' '] →
      findOp (stripChars expr.data) = some (op, l, r) →
      (op = .gt ∨ op = .ge ∨ op = .lt ∨ op = .le) →
      (parseFloat (cleanSide l) = none ∨ parseFloat (cleanSide r) = none) →
      evaluate_simple_condition expr = false) ∧
    evaluate_simple_condition "\"\" == \"\"" = true ∧
    evaluate_simple_condition "\"a\" contains \"a\"" = true ∧
    evaluate_simple_condition "\"1\" < \"2\"" = true ∧
    evaluate_simple_condition "\"a\" < \"b\"" = false := by
  refine ⟨?_, rfl, rfl, rfl, rfl⟩
  intro expr op l r hnot hfind hop hfail
  unfold evaluate_simple_condition evalSimpleChars
  simp only [evalGo]
  rw [if_neg hnot, hfind]
  rcases hop with rfl | rfl | rfl | rfl <;>
    rcases hfail with hf | hf <;>
    simp only [hf] <;>
    first
      | rfl
      | (cases parseFloat (cleanSide l) with
          | none => rfl
          | some a => rfl)

/-- C8 witness: the general parse-failure statement applied to the condition
comparing two non-numeric strings. -/
theorem c8_witness : evaluate_simple_condition "\"a\" < \"b\"" = false :=
  c8_numeric_conditions.1 "\"a\" < \"b\"" .lt ("\"a\"").data ("\"b\"").data
    (by decide) rfl (Or.inr (Or.inr (Or.inl rfl))) (Or.inl rfl)

theorem refMatch_length {l body tail} (h : refMatch l = some (body, tail)) :
    tail.length < l.length := by
  unfold refMatch at h
  split at h
  · rename_i c rest
    simp only at h
    split at h
    · exact absurd h (by simp)
    · rename_i hne
      split at h
      · rename_i heq
        injection h with h
        injection h with h1 h2
        subst h1; subst h2
        have hlen := congrArg List.length heq
        simp [List.length_drop] at hlen
        have := (List.takeWhile_prefix (l := rest) (fun c => !(c = '\x7d'))).length_le
        simp only [List.length_cons]
        omega
      · exact absurd h (by simp)
  · exact absurd h (by simp)

theorem renderChunk_ref (ctx : Ctx) (body : List Char) :
    renderChunk ctx (.ref body) = replacer ctx body := rfl

theorem interpGo_spec (ctx : Ctx) : ∀ (fuel : Nat) (l : List Char), l.length ≤ fuel →
    interpGo ctx fuel l = ((tokenGo fuel l).map (renderChunk ctx)).flatten := by
  intro fuel
  induction fuel with
  | zero =>
    intro l hl
    have : l = [] := List.eq_nil_of_length_eq_zero (Nat.le_zero.mp hl)
    subst this
    rfl
  | succ fuel ih =>
    intro l hl
    cases hm : refMatch l with
    | some p =>
      obtain ⟨body, tail⟩ := p
      have hlen := refMatch_length hm
      simp only [interpGo, tokenGo, hm, List.map_cons, List.flatten_cons]
      rw [renderChunk_ref, ih tail (by omega)]
    | none =>
      cases l with
      | nil => simp [interpGo, tokenGo, hm]
      | cons c cs =>
        simp only [interpGo, tokenGo, hm, List.map_cons, List.flatten_cons]
        rw [ih cs (by simp only [List.length_cons] at hl; omega)]
        simp [renderChunk]

/-- C3: string interpolation equals the specification reading — every
`\x7b\x7bID.KEY\x7d\x7d` occurrence found by the left-to-right scan whose `ID`
is present in the store and whose `KEY` exists under it is replaced by the
whitespace-stripped string form of the value (a falsy value giving the empty
string), and every occurrence with `ID` or `KEY` missing is left unchanged. -/
theorem c3_interpolation_follows_spec :
    ∀ (ctx : Ctx) (text : String),
      interpolate_string ctx text = specInterpolate ctx text := by
  intro ctx text
  unfold interpolate_string specInterpolate interpolateChars tokenize
  rw [interpGo_spec ctx text.data.length text.data (le_refl _)]

theorem precededOk_nil : precededOk [] := by
  intro i
  exact absurd i.isLt (by simp)

theorem precededOk_no_sf (Δ : List Event)
    (h : ∀ e ∈ Δ, e.event_type ≠ "STEP_SUCCESS" ∧ e.event_type ≠ "STEP_FAILURE") :
    precededOk Δ := by
  intro i hsf
  have hm := h (Δ.get i) (Δ.get_mem i.1 i.2)
  rcases hsf with h1 | h1
  · exact absurd h1 hm.1
  · exact absurd h1 hm.2

theorem precededOk_start_cons (id : String) (pl : List (String × Value))
    (rest : List Event) (h : ∀ e ∈ rest, e.step_id = some id) :
    precededOk (⟨"STEP_START", some id, pl⟩ :: rest) := by
  intro i hsf
  match i with
  | ⟨0, h0⟩ =>
    simp only [List.get] at hsf
    rcases hsf with h1 | h1 <;> simp at h1
  | ⟨k + 1, hk⟩ =>
    refine ⟨⟨0, by simp⟩, by simp, rfl, ?_⟩
    have htail : (Event.mk "STEP_START" (some id) pl :: rest).get ⟨k + 1, hk⟩ =
        rest.get ⟨k, by simpa using hk⟩ := rfl
    rw [htail]
    exact (h _ (rest.get_mem _ _)).symm

theorem precededOk_append {a b : List Event} (ha : precededOk a) (hb : precededOk b) :
    precededOk (a ++ b) := by
  intro i hsf
  by_cases hia : (i : Nat) < a.length
  · have hget : (a ++ b).get i = a.get ⟨i, hia⟩ := by
      simp [List.get_eq_getElem, List.getElem_append_left hia]
    rw [hget] at hsf
    obtain ⟨j, hji, hjt, hjs⟩ := ha ⟨i, hia⟩ hsf
    have hjlt : (j : Nat) < (a ++ b).length := by
      simp only [List.length_append]
      omega
    have hgj : (a ++ b).get ⟨j, hjlt⟩ = a.get j := by
      simp [List.get_eq_getElem, List.getElem_append_left j.isLt]
    refine ⟨⟨j, hjlt⟩, hji, ?_, ?_⟩
    · rw [hgj]; exact hjt
    · rw [hgj, hget]; exact hjs
  · push_neg at hia
    have hib : (i : Nat) - a.length < b.length := by
      have := i.isLt
      simp only [List.length_append] at this
      omega
    have hget : (a ++ b).get i = b.get ⟨(i : Nat) - a.length, hib⟩ := by
      simp only [List.get_eq_getElem]
      exact List.getElem_append_right hia ..
    rw [hget] at hsf
    obtain ⟨j, hji, hjt, hjs⟩ := hb ⟨(i : Nat) - a.length, hib⟩ hsf
    have hjlt : a.length + (j : Nat) < (a ++ b).length := by
      simp only [List.length_append]
      omega
    have hgj : (a ++ b).get ⟨a.length + (j : Nat), hjlt⟩ = b.get j := by
      simp only [List.get_eq_getElem]
      rw [List.getElem_append_right (by omega)]
      congr 1
      omega
    refine ⟨⟨a.length + (j : Nat), hjlt⟩, by simp at hji ⊢; omega, ?_, ?_⟩
    · rw [hgj]; exact hjt
    · rw [hgj, hget]; exact hjs

theorem execute_step_preceded (env : Env) (st : ExecState) (step : AOLStep)
    (h : precededOk st.log) : precededOk (execute_step env st step).2.log := by
  unfold execute_step
  dsimp only
  split
  · simp only [appendEvent]
    exact precededOk_append h (precededOk_no_sf _ (by
      intro e he
      simp only [List.mem_singleton] at he
      subst he
      exact ⟨by simp, by simp⟩))
  · split
    · simp only [appendEvent, List.append_assoc, List.singleton_append]
      exact precededOk_append h (precededOk_start_cons _ _ _ (by
        intro e he
        simp only [List.mem_singleton] at he
        subst he
        rfl))
    · split
      · simp only [appendEvent]
        exact precededOk_append h (precededOk_start_cons _ _ _ (by intro e he; simp at he))
      · split
        · simp only [appendEvent, List.append_assoc, List.singleton_append]
          exact precededOk_append h (precededOk_start_cons _ _ _ (by
            intro e he
            simp only [List.mem_singleton] at he
            subst he
            rfl))
        · split
          · simp only [appendEvent, List.append_assoc, List.singleton_append]
            exact precededOk_append h (precededOk_start_cons _ _ _ (by
              intro e he
              simp only [List.mem_singleton] at he
              subst he
              rfl))
          · split
            · simp only [appendEvent, List.append_assoc, List.singleton_append]
              exact precededOk_append h (precededOk_start_cons _ _ _ (by
                intro e he
                simp only [List.mem_singleton] at he
                subst he
                rfl))
            · simp only [appendEvent, List.append_assoc, List.singleton_append]
              exact precededOk_append h (precededOk_start_cons _ _ _ (by
                intro e he
                simp only [List.mem_singleton] at he
                subst he
                rfl))

theorem retryLoop_preceded (env : Env) :
    ∀ (n : Nat) (st : ExecState) (step : AOLStep),
      precededOk st.log → precededOk (retryLoop env n st step).2.log := by
  intro n
  induction n with
  | zero => intro st step h; exact h
  | succ n ih =>
    intro st step h
    unfold retryLoop
    dsimp only
    split
    · exact execute_step_preceded env st step h
    · exact ih _ step (execute_step_preceded env st step h)

theorem handle_failure_preceded (env : Env) (wf : AOLWorkflow) (st : ExecState)
    (step : AOLStep) (h : precededOk st.log) :
    precededOk (handle_failure env wf st step).2.log := by
  unfold handle_failure
  split
  · exact h
  · split
    · exact h
    · exact h
    · exact retryLoop_preceded env _ st step h
    · split
      · split
        · exact h
        · split
          · exact execute_step_preceded env st _ h
          · exact h
      · exact h
    · exact h

theorem handle_loop_begin_log (st : ExecState) (step : AOLStep) (ip : Nat)
    (steps : List AOLStep) :
    (handle_loop_begin st step ip steps).1.log =
      st.log ++ [⟨"LOOP_ITERATION", some step.id,
        [("counter", .vInt (((st.loop_counters.lookup step.id).getD 0) + 1))]⟩] := by
  unfold handle_loop_begin
  dsimp only
  split <;> first
    | rfl
    | (split <;> rfl)

theorem handle_loop_begin_preceded (st : ExecState) (step : AOLStep) (ip : Nat)
    (steps : List AOLStep) (h : precededOk st.log) :
    precededOk (handle_loop_begin st step ip steps).1.log := by
  rw [handle_loop_begin_log]
  exact precededOk_append h (precededOk_no_sf _ (by
    intro e he
    simp only [List.mem_singleton] at he
    subst he
    exact ⟨by simp, by simp⟩))

theorem handle_loop_end_state (st : ExecState) (step : AOLStep) (ip : Nat)
    (steps : List AOLStep) (r : ExecState × Nat)
    (h : handle_loop_end st step ip steps = some r) : r.1 = st := by
  unfold handle_loop_end at h
  split at h
  · exact absurd h (by simp)
  · split at h
    · injection h with h; rw [← h]
    · split at h
      · injection h with h; rw [← h]
      · exact absurd h (by simp)

theorem handle_switch_state (st : ExecState) (step : AOLStep) (ip : Nat) :
    (handle_switch st step ip).2.1 = st := by
  unfold handle_switch
  split <;> rfl

theorem runSteps_preceded (env : Env) (wf : AOLWorkflow) :
    ∀ (fuel : Nat) (st : ExecState) (ip : Nat) (b : Bool) (st' : ExecState),
      runSteps env wf fuel st ip = some (b, st') →
      precededOk st.log → precededOk st'.log := by
  intro fuel
  induction fuel with
  | zero => intro st ip b st' hrun; exact absurd hrun (by simp [runSteps])
  | succ fuel ih =>
    intro st ip b st' hrun h
    rw [runSteps] at hrun
    dsimp only at hrun
    split at hrun
    · injection hrun with hrun
      injection hrun with h1 h2
      rw [← h2]
      simp only [appendEvent]
      exact precededOk_append h (precededOk_no_sf _ (by
        intro e he
        simp only [List.mem_singleton] at he
        subst he
        exact ⟨by simp, by simp⟩))
    · rename_i step hstep
      split at hrun
      · exact ih _ _ _ _ hrun (handle_loop_begin_preceded st step _ wf.steps h)
      · split at hrun
        · split at hrun
          · rename_i r hle
            have := handle_loop_end_state st step _ wf.steps r hle
            exact ih _ _ _ _ hrun (this ▸ h)
          · exact absurd hrun (by simp)
        · split at hrun
          · exact ih _ _ _ _ hrun (by rw [handle_switch_state st step ip]; exact h)
          · split at hrun
            · exact ih _ _ _ _ hrun (execute_step_preceded env st step h)
            · split at hrun
              · exact ih _ _ _ _ hrun
                  (handle_failure_preceded env wf _ step
                    (execute_step_preceded env st step h))
              · injection hrun with hrun
                injection hrun with h1 h2
                rw [← h2]
                simp only [appendEvent]
                exact precededOk_append
                  (handle_failure_preceded env wf _ step
                    (execute_step_preceded env st step h))
                  (precededOk_no_sf _ (by
                    intro e he
                    simp only [List.mem_singleton] at he
                    subst he
                    exact ⟨by simp, by simp⟩))

/-- C2: in every terminating run, each `STEP_SUCCESS` and `STEP_FAILURE`
event is preceded by a `STEP_START` of the same step (for resumed runs,
provided the prior log file already satisfied this); the claim fails for
`STEP_SKIPPED`, which is emitted without any `STEP_START` (see the
counterexample). -/
theorem c2_success_failure_preceded_by_start :
    ∀ (env : Env) (wf : AOLWorkflow) (resume : Bool) (priorLog : Option (List Event))
      (fuel : Nat) (b : Bool) (st : ExecState),
      (∀ l, priorLog = some l → precededOk l) →
      run_workflow env wf resume priorLog fuel = some (.finished b st) →
      precededOk st.log := by
  intro env wf resume priorLog fuel b st hprior hrun
  unfold run_workflow at hrun
  dsimp only at hrun
  split at hrun
  · exact absurd hrun (by simp)
  · split at hrun
    · exact absurd hrun (by simp)
    · rename_i r hr
      injection hrun with hrun
      have hb : r = (b, st) := by
        cases r
        simp only [RunOutcome.finished.injEq] at hrun
        simp [hrun.1, hrun.2]
      subst hb
      refine runSteps_preceded env wf fuel _ _ b st hr ?_
      show precededOk (initialLog wf resume priorLog)
      have hz : precededOk [stateZeroEvent wf] := precededOk_no_sf _ (by
        intro e he
        simp only [List.mem_singleton] at he
        subst he
        exact ⟨by simp [stateZeroEvent], by simp [stateZeroEvent]⟩)
      cases resume with
      | false =>
        rw [show initialLog wf false priorLog = [stateZeroEvent wf] from by
          cases priorLog <;> rfl]
        exact hz
      | true =>
        cases priorLog with
        | none => exact hz
        | some l => exact hprior l rfl

/-- C2 counterexample: the run of a workflow whose only step is skipped emits
a `STEP_SKIPPED` event for it and no `STEP_START` at all, so a skipped step is
not covered by the claimed precedence. -/
theorem c2_counterexample :
    (runLogOf (run_workflow envAllOk wfSkip false none 10)).countP
      (fun e => e.event_type == "STEP_SKIPPED" && e.step_id == some "s1") = 1 ∧
    (runLogOf (run_workflow envAllOk wfSkip false none 10)).countP
      (fun e => e.event_type == "STEP_START") = 0 :=
  ⟨rfl, rfl⟩

/-- C2 witness: the amended statement applied to the concrete fresh run of
`wfSkip`. -/
theorem c2_witness : precededOk skipFinalSt.log :=
  c2_success_failure_preceded_by_start envAllOk wfSkip false none 10 true skipFinalSt
    (fun _ h => Option.noConfusion h) rfl

theorem ctxEventInv_of_append_same (st : ExecState) (Δ : List Event)
    (lc' : List (String × Int)) (n' : Nat) (h : ctxEventInv st) :
    ctxEventInv ⟨st.context, lc', st.log ++ Δ, n'⟩ := by
  intro p hp
  rcases h p hp with h1 | h1 | ⟨e, he, hprop⟩
  · exact Or.inl h1
  · exact Or.inr (Or.inl h1)
  · exact Or.inr (Or.inr ⟨e, List.mem_append_left Δ he, hprop⟩)

theorem ctxEventInv_of_upd (st : ExecState) (id : String) (entry : CtxEntry)
    (Δ : List Event) (lc' : List (String × Int)) (n' : Nat)
    (hev : ∃ e ∈ Δ, e.step_id = some id ∧
      (e.event_type = "STEP_SUCCESS" ∨ e.event_type = "STEP_SKIPPED" ∨
       e.event_type = "STEP_FAILURE" ∨ e.event_type = "LOOP_ITERATION"))
    (h : ctxEventInv st) :
    ctxEventInv ⟨updAssoc st.context id entry, lc', st.log ++ Δ, n'⟩ := by
  intro p hp
  rcases mem_updAssoc hp with hid | hmem
  · obtain ⟨e, he, hprop⟩ := hev
    exact Or.inr (Or.inr ⟨e, List.mem_append_right _ he, hid ▸ hprop⟩)
  · rcases h p hmem with h1 | h1 | ⟨e, he, hprop⟩
    · exact Or.inl h1
    · exact Or.inr (Or.inl h1)
    · exact Or.inr (Or.inr ⟨e, List.mem_append_left Δ he, hprop⟩)

theorem execute_step_ctxInv (env : Env) (st : ExecState) (step : AOLStep)
    (h : ctxEventInv st) : ctxEventInv (execute_step env st step).2 := by
  unfold execute_step
  dsimp only
  split
  · exact ctxEventInv_of_upd st step.id _ [⟨"STEP_SKIPPED", some step.id,
      [("reason", .vStr "Condition false")]⟩] _ _
      ⟨_, List.mem_singleton_self _, rfl, Or.inr (Or.inl rfl)⟩ h
  · split
    · exact ctxEventInv_of_append_same (appendEvent st "STEP_START" (some step.id) []) _ _ _
        (ctxEventInv_of_append_same st _ _ _ h)
    · split
      · exact ctxEventInv_of_append_same st _ _ _ h
      · split
        · exact ctxEventInv_of_append_same (appendEvent st "STEP_START" (some step.id) []) _ _ _
            (ctxEventInv_of_append_same st _ _ _ h)
        · split
          · exact ctxEventInv_of_append_same (appendEvent st "STEP_START" (some step.id) []) _ _ _
              (ctxEventInv_of_append_same st _ _ _ h)
          · split
            · exact ctxEventInv_of_upd (appendEvent st "STEP_START" (some step.id) [])
                step.id _ _ _ _
                ⟨_, List.mem_singleton_self _, rfl, Or.inr (Or.inr (Or.inl rfl))⟩
                (ctxEventInv_of_append_same st _ _ _ h)
            · exact ctxEventInv_of_upd (appendEvent st "STEP_START" (some step.id) [])
                step.id _ _ _ _
                ⟨_, List.mem_singleton_self _, rfl, Or.inl rfl⟩
                (ctxEventInv_of_append_same st _ _ _ h)

theorem retryLoop_ctxInv (env : Env) :
    ∀ (n : Nat) (st : ExecState) (step : AOLStep),
      ctxEventInv st → ctxEventInv (retryLoop env n st step).2 := by
  intro n
  induction n with
  | zero => intro st step h; exact h
  | succ n ih =>
    intro st step h
    unfold retryLoop
    dsimp only
    split
    · exact execute_step_ctxInv env st step h
    · exact ih _ step (execute_step_ctxInv env st step h)

theorem handle_failure_ctxInv (env : Env) (wf : AOLWorkflow) (st : ExecState)
    (step : AOLStep) (h : ctxEventInv st) :
    ctxEventInv (handle_failure env wf st step).2 := by
  unfold handle_failure
  split
  · exact h
  · split
    · exact h
    · exact h
    · exact retryLoop_ctxInv env _ st step h
    · split
      · split
        · exact h
        · split
          · exact execute_step_ctxInv env st _ h
          · exact h
      · exact h
    · exact h

theorem handle_loop_begin_ctxInv (st : ExecState) (step : AOLStep) (ip : Nat)
    (steps : List AOLStep) (h : ctxEventInv st) :
    ctxEventInv (handle_loop_begin st step ip steps).1 := by
  unfold handle_loop_begin
  dsimp only
  have base : ctxEventInv
      ⟨updAssoc st.context step.id
        [("counter", .vStr (toString (((st.loop_counters.lookup step.id).getD 0) + 1)))],
       updAssoc st.loop_counters step.id (((st.loop_counters.lookup step.id).getD 0) + 1),
       st.log ++ [⟨"LOOP_ITERATION", some step.id,
         [("counter", .vInt (((st.loop_counters.lookup step.id).getD 0) + 1))]⟩],
       st.calls⟩ :=
    ctxEventInv_of_upd st step.id _ _ _ _
      ⟨_, List.mem_singleton_self _, rfl, Or.inr (Or.inr (Or.inr rfl))⟩ h
  split
  · split
    · exact base
    · exact base
  · exact base

theorem runSteps_ctxInv (env : Env) (wf : AOLWorkflow) :
    ∀ (fuel : Nat) (st : ExecState) (ip : Nat) (b : Bool) (st' : ExecState),
      runSteps env wf fuel st ip = some (b, st') →
      ctxEventInv st → ctxEventInv st' := by
  intro fuel
  induction fuel with
  | zero => intro st ip b st' hrun; exact absurd hrun (by simp [runSteps])
  | succ fuel ih =>
    intro st ip b st' hrun h
    rw [runSteps] at hrun
    dsimp only at hrun
    split at hrun
    · injection hrun with hrun
      injection hrun with h1 h2
      rw [← h2]
      exact ctxEventInv_of_append_same st _ _ _ h
    · rename_i step hstep
      split at hrun
      · exact ih _ _ _ _ hrun (handle_loop_begin_ctxInv st step _ wf.steps h)
      · split at hrun
        · split at hrun
          · rename_i r hle
            have := handle_loop_end_state st step _ wf.steps r hle
            exact ih _ _ _ _ hrun (this ▸ h)
          · exact absurd hrun (by simp)
        · split at hrun
          · exact ih _ _ _ _ hrun (by rw [handle_switch_state st step _]; exact h)
          · split at hrun
            · exact ih _ _ _ _ hrun (execute_step_ctxInv env st step h)
            · split at hrun
              · exact ih _ _ _ _ hrun
                  (handle_failure_ctxInv env wf _ step (execute_step_ctxInv env st step h))
              · injection hrun with hrun
                injection hrun with h1 h2
                rw [← h2]
                exact ctxEventInv_of_append_same _ _ _ _
                  (handle_failure_ctxInv env wf _ step (execute_step_ctxInv env st step h))

theorem execute_step_keeps (env : Env) (st : ExecState) (step : AOLStep) (k : String)
    (h : (st.context.lookup k).isSome = true) :
    ((execute_step env st step).2.context.lookup k).isSome = true := by
  unfold execute_step
  dsimp only
  split
  · exact lookup_updAssoc_isSome _ _ _ _ h
  · split
    · exact h
    · split
      · exact h
      · split
        · exact h
        · split
          · exact h
          · split
            · exact lookup_updAssoc_isSome _ _ _ _ h
            · exact lookup_updAssoc_isSome _ _ _ _ h

theorem retryLoop_keeps (env : Env) :
    ∀ (n : Nat) (st : ExecState) (step : AOLStep) (k : String),
      (st.context.lookup k).isSome = true →
      ((retryLoop env n st step).2.context.lookup k).isSome = true := by
  intro n
  induction n with
  | zero => intro st step k h; exact h
  | succ n ih =>
    intro st step k h
    unfold retryLoop
    dsimp only
    split
    · exact execute_step_keeps env st step k h
    · exact ih _ step k (execute_step_keeps env st step k h)

theorem handle_failure_keeps (env : Env) (wf : AOLWorkflow) (st : ExecState)
    (step : AOLStep) (k : String) (h : (st.context.lookup k).isSome = true) :
    ((handle_failure env wf st step).2.context.lookup k).isSome = true := by
  unfold handle_failure
  split
  · exact h
  · split
    · exact h
    · exact h
    · exact retryLoop_keeps env _ st step k h
    · split
      · split
        · exact h
        · split
          · exact execute_step_keeps env st _ k h
          · exact h
      · exact h
    · exact h

theorem handle_loop_begin_keeps (st : ExecState) (step : AOLStep) (ip : Nat)
    (steps : List AOLStep) (k : String) (h : (st.context.lookup k).isSome = true) :
    ((handle_loop_begin st step ip steps).1.context.lookup k).isSome = true := by
  unfold handle_loop_begin
  dsimp only
  split
  · split
    · exact lookup_updAssoc_isSome _ _ _ _ h
    · exact lookup_updAssoc_isSome _ _ _ _ h
  · exact lookup_updAssoc_isSome _ _ _ _ h

theorem runSteps_keeps (env : Env) (wf : AOLWorkflow) :
    ∀ (fuel : Nat) (st : ExecState) (ip : Nat) (b : Bool) (st' : ExecState) (k : String),
      runSteps env wf fuel st ip = some (b, st') →
      (st.context.lookup k).isSome = true →
      ((st'.context.lookup k).isSome = true) := by
  intro fuel
  induction fuel with
  | zero => intro st ip b st' k hrun; exact absurd hrun (by simp [runSteps])
  | succ fuel ih =>
    intro st ip b st' k hrun h
    rw [runSteps] at hrun
    dsimp only at hrun
    split at hrun
    · injection hrun with hrun
      injection hrun with h1 h2
      rw [← h2]
      exact h
    · rename_i step hstep
      split at hrun
      · exact ih _ _ _ _ _ hrun (handle_loop_begin_keeps st step _ wf.steps k h)
      · split at hrun
        · split at hrun
          · rename_i r hle
            have := handle_loop_end_state st step _ wf.steps r hle
            exact ih _ _ _ _ _ hrun (this ▸ h)
          · exact absurd hrun (by simp)
        · split at hrun
          · exact ih _ _ _ _ _ hrun (by rw [handle_switch_state st step _]; exact h)
          · split at hrun
            · exact ih _ _ _ _ _ hrun (execute_step_keeps env st step k h)
            · split at hrun
              · exact ih _ _ _ _ _ hrun
                  (handle_failure_keeps env wf _ step k (execute_step_keeps env st step k h))
              · injection hrun with hrun
                injection hrun with h1 h2
                rw [← h2]
                exact handle_failure_keeps env wf _ step k (execute_step_keeps env st step k h)

/-- C1: the reserved entries are seeded and survive to the end of every
terminating run, and every Context Store entry belongs to a step id for which
the log records a `STEP_SUCCESS`, `STEP_SKIPPED`, `STEP_FAILURE` or
`LOOP_ITERATION` event — failure events do create entries (the tool result is
stored before validation), so the claimed restriction to success/skip fails
(see the counterexample). -/
theorem c1_context_entries_have_events :
    ∀ (env : Env) (wf : AOLWorkflow) (resume : Bool) (priorLog : Option (List Event))
      (fuel : Nat) (b : Bool) (st : ExecState),
      run_workflow env wf resume priorLog fuel = some (.finished b st) →
      (st.context.lookup "user_inputs").isSome = true ∧
      (st.context.lookup "provider").isSome = true ∧
      ctxEventInv st := by
  intro env wf resume priorLog fuel b st hrun
  unfold run_workflow at hrun
  dsimp only at hrun
  split at hrun
  · exact absurd hrun (by simp)
  · split at hrun
    · exact absurd hrun (by simp)
    · rename_i r hr
      injection hrun with hrun
      have hb : r = (b, st) := by
        cases r
        simp only [RunOutcome.finished.injEq] at hrun
        simp [hrun.1, hrun.2]
      subst hb
      have hui : (((initialCtx wf).lookup "user_inputs").isSome) = true := rfl
      have hpr : (((initialCtx wf).lookup "provider").isSome) = true := rfl
      have hinv : ctxEventInv ⟨initialCtx wf, [], initialLog wf resume priorLog, 0⟩ := by
        intro p hp
        have hp' : p ∈ updAssoc (updAssoc [] "user_inputs" (dumpUserInputs wf.user_inputs))
            "provider" (dumpProvider wf.provider) := hp
        have : p.1 = "user_inputs" ∨ p.1 = "provider" := by
          rcases mem_updAssoc hp' with h1 | h1
          · exact Or.inr h1
          · rcases mem_updAssoc h1 with h2 | h2
            · exact Or.inl h2
            · simp at h2
        rcases this with h1 | h1
        · exact Or.inl h1
        · exact Or.inr (Or.inl h1)
      exact ⟨runSteps_keeps env wf fuel _ _ b st "user_inputs" hr hui,
        runSteps_keeps env wf fuel _ _ b st "provider" hr hpr,
        runSteps_ctxInv env wf fuel _ _ b st hr hinv⟩

/-- C1 counterexample: a step whose tool call errors emits `STEP_FAILURE` and
no `STEP_SUCCESS`/`STEP_SKIPPED`, yet its id does receive a Context Store
entry — the result is stored before validation. -/
theorem c1_counterexample :
    ((runCtxOf (run_workflow envToolError wf1 false none 10)).lookup "s1").isSome = true ∧
    (runLogOf (run_workflow envToolError wf1 false none 10)).countP
      (fun e => e.step_id == some "s1" &&
        (e.event_type == "STEP_SUCCESS" || e.event_type == "STEP_SKIPPED")) = 0 ∧
    (runLogOf (run_workflow envToolError wf1 false none 10)).countP
      (fun e => e.event_type == "STEP_FAILURE" && e.step_id == some "s1") = 1 :=
  ⟨rfl, rfl, rfl⟩

/-- C1 witness: the amended statement applied to the concrete run of `wfSkip`. -/
theorem c1_witness :
    ((skipFinalSt.context.lookup "user_inputs").isSome = true ∧
     (skipFinalSt.context.lookup "provider").isSome = true ∧
     ctxEventInv skipFinalSt) :=
  c1_context_entries_have_events envAllOk wfSkip false none 10 true skipFinalSt rfl

/-- C5: when a regular step fails and its failure policy does not clear the
failure, the run ends with result `false` and a final `WORKFLOW_ABORTED` event
that carries the failing step id in its `step_id` field (not in the payload,
which holds only a fixed reason string — see the counterexample), and the CLI
exit status of such a run is 1. -/
theorem c5_abort_ends_run_with_step_id :
    ∀ (env : Env) (wf : AOLWorkflow) (fuel : Nat) (st : ExecState) (ip : Nat)
      (step : AOLStep),
      wf.steps[ip]? = some step →
      step.loop_begin = none → step.loop_end = none → step.switch = none →
      (execute_step env st step).1 = false →
      (handle_failure env wf (execute_step env st step).2 step).1 = false →
      runSteps env wf (fuel + 1) st ip = some (false, abortedState env wf st step) ∧
      (abortedState env wf st step).log.getLastD ⟨"", none, []⟩ = abortEvent step.id ∧
      (abortEvent step.id).step_id = some step.id ∧
      cli_exit_code (.finished false (abortedState env wf st step)) = 1 := by
  intro env wf fuel st ip step hstep hb he hsw hfail hnf
  refine ⟨?_, ?_, rfl, rfl⟩
  · rw [runSteps]
    dsimp only
    simp only [hstep, hb, he, hsw, Option.isSome_none, Bool.false_eq_true, if_false,
      hfail, hnf]
    rfl
  · show ((handle_failure env wf (execute_step env st step).2 step).2.log ++
      [abortEvent step.id]).getLastD ⟨"", none, []⟩ = abortEvent step.id
    exact List.getLastD_concat _ _ _

/-- C5 counterexample: in the concrete aborted run, the final event is
`WORKFLOW_ABORTED` with the failing step id `s1` in its `step_id` field, while
its payload mapping holds only the fixed reason string — the id is not
contained in the payload. -/
theorem c5_counterexample :
    ((runLogOf (run_workflow envToolError wf1 false none 10)).getLastD
      ⟨"", none, []⟩).event_type = "WORKFLOW_ABORTED" ∧
    ((runLogOf (run_workflow envToolError wf1 false none 10)).getLastD
      ⟨"", none, []⟩).step_id = some "s1" ∧
    ((runLogOf (run_workflow envToolError wf1 false none 10)).getLastD
      ⟨"", none, []⟩).payload =
      [("reason", Value.vStr "Step failed with abort strategy")] ∧
    ((runLogOf (run_workflow envToolError wf1 false none 10)).getLastD
      ⟨"", none, []⟩).payload.lookup "s1" = none :=
  ⟨rfl, rfl, rfl, rfl⟩

/-- C5 witness: the amended statement applied to the failing step of `wf1`
under the erroring environment. -/
theorem c5_witness :
    runSteps envToolError wf1 (9 + 1) c5initSt 0 =
      some (false, abortedState envToolError wf1 c5initSt s1step) ∧
    (abortedState envToolError wf1 c5initSt s1step).log.getLastD ⟨"", none, []⟩ =
      abortEvent "s1" ∧
    (abortEvent "s1").step_id = some "s1" ∧
    cli_exit_code (.finished false (abortedState envToolError wf1 c5initSt s1step)) = 1 :=
  c5_abort_ends_run_with_step_id envToolError wf1 9 c5initSt 0 s1step rfl rfl rfl rfl
    rfl rfl

/-- C6: the claim holds only when the log's last successful step is the final
step of the list: then a resumed run appends exactly the terminal
`WORKFLOW_COMPLETE` event; when a step after the last `STEP_SUCCESS` emits a
non-terminal event (e.g. an extension-less step emits `STEP_START`), the
resumed run appends non-terminal events (see the counterexample). -/
theorem c6_resume_after_success_appends_only_terminal :
    ∀ (env : Env) (wf : AOLWorkflow) (l : List Event) (fuel : Nat) (sid : String),
      (validate_dependencies env.registry wf).1 = true →
      get_last_successful_step l = some sid →
      wf.steps.findIdx? (fun s => s.id == sid) = some (wf.steps.length - 1) →
      0 < wf.steps.length →
      run_workflow env wf true (some l) (fuel + 1) =
        some (.finished true
          ⟨initialCtx wf, [], l ++ [⟨"WORKFLOW_COMPLETE", none, []⟩], 0⟩) := by
  intro env wf l fuel sid hval hlast hidx hlen
  unfold run_workflow
  dsimp only
  rw [if_neg (by simp [hval])]
  simp only [initialLog, eq_self_iff_true, if_true, hlast, hidx]
  rw [show wf.steps.length - 1 + 1 = wf.steps.length from by omega]
  rw [runSteps]
  rw [show wf.steps[wf.steps.length]? = none from List.getElem?_eq_none (le_refl _)]
  rfl

/-- C6 counterexample: `wf2` completes successfully, but its final step is
extension-less and emits no `STEP_SUCCESS`, so the resumed run re-executes it
and appends a non-terminal `STEP_START` event besides the terminal one. -/
theorem c6_counterexample :
    runSuccessOf (run_workflow envAllOk wf2 false none 10) = true ∧
    ((runLogOf (run_workflow envAllOk wf2 true
        (some (runLogOf (run_workflow envAllOk wf2 false none 10))) 10)).drop
      (runLogOf (run_workflow envAllOk wf2 false none 10)).length).countP
      (fun e => !(e.event_type == "WORKFLOW_COMPLETE" ||
        e.event_type == "WORKFLOW_ABORTED")) = 1 :=
  ⟨rfl, rfl⟩

/-- C6 witness: the amended statement applied to the completed run of `wf1`
and its own log. -/
theorem c6_witness :
    run_workflow envAllOk wf1 true (some c6log) (9 + 1) =
      some (.finished true
        ⟨initialCtx wf1, [], c6log ++ [⟨"WORKFLOW_COMPLETE", none, []⟩], 0⟩) :=
  c6_resume_after_success_appends_only_terminal envAllOk wf1 c6log 9 "s1" rfl rfl rfl
    (by decide)

end Paws
